import Mathlib

/-!
Shallow embedding of the cake-bot repository (Go): review-status label
classification and reconciliation (`issues.go`), pagination walkers,
label provisioning, bulk sync and the webhook handler (`main.go`).
Machine strings are modelled as Lean `String`/`List Char`; the Go
standard-library string operations used by the source (ToLower, Contains,
Split, TrimSpace) are re-implemented structurally so that all
definitions are executable and kernel-reducible.
-/

/-- Character-list test: `needle` occurs at the start of `hay`
(Go `strings.HasPrefix` on the underlying bytes, ASCII). -/
def startsWithChars : List Char → List Char → Bool
  | [], _ => true
  | _ :: _, [] => false
  | a :: as, b :: bs => a == b && startsWithChars as bs

/-- Character-list test: `needle` occurs somewhere in `hay`
(Go `strings.Contains`). -/
def containsChars (nd : List Char) : List Char → Bool
  | [] => startsWithChars nd []
  | c :: t => startsWithChars nd (c :: t) || containsChars nd t

/-- Lower-cased character list of a string (Go `strings.ToLower`, and the
case folding performed by the `(?i)` regexp flag, at ASCII). -/
def lowerStr (s : String) : List Char := s.toList.map Char.toLower

/-- Go `strings.Contains(hay, needle)`. -/
def strContains (hay nd : String) : Bool := containsChars nd.toList hay.toList

/-- Case-insensitive string equality, as the source's
`strings.ToLower(a) == strings.ToLower(b)`. -/
def ciEq (a b : String) : Bool := lowerStr a == lowerStr b

/-- Go `strings.Split(s, sep)` for a one-character separator, on char lists. -/
def splitChar (sep : Char) : List Char → List (List Char)
  | [] => [[]]
  | c :: t =>
    match splitChar sep t with
    | [] => if c == sep then [[], []] else [[c]]
    | h :: r => if c == sep then [] :: h :: r else (c :: h) :: r

/-- Go `strings.TrimSpace` (ASCII whitespace), on char lists. -/
def trimChars (l : List Char) : List Char :=
  ((l.dropWhile Char.isWhitespace).reverse.dropWhile Char.isWhitespace).reverse

/-- First character equals `c` (Go `strings.HasPrefix` with a one-char pattern). -/
def startsChar (c : Char) : List Char → Bool
  | [] => false
  | h :: _ => h == c

/-- Last character equals `c` (Go `strings.HasSuffix` with a one-char pattern). -/
def endsChar (c : Char) (l : List Char) : Bool :=
  match l.getLast? with
  | some x => x == c
  | none => false

/-- Status labels, `issues.go` lines 13-17. -/
def WIPLabel : String := "wip"

/-- Status label for a caked (approved) review. -/
def CakedLabel : String := "caked"

/-- Status label for a review still awaiting cake. -/
def AwaitingCakeLabel : String := "awaiting-cake"

/-- The embedded `github.Issue` fields the source dereferences. -/
structure GIssue where
  number : Int
  title : String
  body : String
  htmlURL : String
  labels : List String
  prLinked : Bool
deriving DecidableEq

/-- The embedded `github.Repository` fields the source dereferences. -/
structure GRepo where
  ownerLogin : String
  name : String
deriving DecidableEq

/-- `ReviewRequest` (`issues.go` lines 115-119); comments are kept as their
body strings, the only field the source reads from a comment. -/
structure ReviewRequest where
  issue : GIssue
  repo : GRepo
  comments : List String
deriving DecidableEq

/-- `IsWIP` (`issues.go` line 121): `WIPRegex = (?i)wip` matched against the
issue title, i.e. a case-insensitive substring test for `wip`. -/
def IsWIP (p : ReviewRequest) : Bool :=
  containsChars "wip".toList (lowerStr p.issue.title)

/-- `IsCaked` (`issues.go` line 125): some comment body contains `:cake:`. -/
def IsCaked (p : ReviewRequest) : Bool :=
  p.comments.any (fun c => strContains c ":cake:")

/-- `CalculateAppropriateStatus` (`issues.go` line 135). -/
def CalculateAppropriateStatus (p : ReviewRequest) : String :=
  if IsWIP p then WIPLabel
  else if IsCaked p then CakedLabel
  else AwaitingCakeLabel

/-- Membership in the three status labels, the source's
`switch *l.Name / case WIPLabel, CakedLabel, AwaitingCakeLabel`. -/
def isStatusLabel (l : String) : Bool :=
  l == WIPLabel || l == CakedLabel || l == AwaitingCakeLabel

/-- The loop body of `updateIssueReviewLabels` (`issues.go` lines 67-82):
walking the issue labels in order, returns (non-status labels in order,
`foundReviewLabel`, `incorrectReviewLabel`) for the given target status. -/
def buildLabels (target : String) : List String → List String × Bool × Bool
  | [] => ([], false, false)
  | l :: ls =>
    match buildLabels target ls with
    | (nl, found, incorrect) =>
      if isStatusLabel l then (nl, true, (l != target) || incorrect)
      else (l :: nl, found, incorrect)

/-- The pure content of `updateIssueReviewLabels` (`issues.go` lines 61-95):
whether `labelsNeedUpdating` and the computed `newLabels`
(`[target] ++ non-status labels in order`). -/
def labelDecision (review : ReviewRequest) : Bool × List String :=
  let target := CalculateAppropriateStatus review
  match buildLabels target review.issue.labels with
  | (nl, found, incorrect) => (!found || incorrect, target :: nl)

/-- The remote replace-all-labels calls issued by one invocation of
`updateIssueReviewLabels` (`issues.go` lines 97-104): one call carrying
`newLabels` when `labelsNeedUpdating`, no call otherwise. -/
def updateIssueReviewLabels (review : ReviewRequest) : List (List String) :=
  if (labelDecision review).1 then [(labelDecision review).2] else []

/-- Characterisation of prefix testing by list decomposition. -/
theorem startsWithChars_iff (nd h : List Char) :
    startsWithChars nd h = true ↔ ∃ t, h = nd ++ t := by
  induction nd generalizing h with
  | nil => simp [startsWithChars]
  | cons a as ih =>
    cases h with
    | nil =>
      simp [startsWithChars]
    | cons b bs =>
      simp only [startsWithChars, Bool.and_eq_true, beq_iff_eq, ih]
      constructor
      · rintro ⟨rfl, t, rfl⟩
        exact ⟨t, rfl⟩
      · rintro ⟨t, ht⟩
        cases ht
        exact ⟨rfl, t, rfl⟩

/-- Characterisation of substring testing by list decomposition. -/
theorem containsChars_iff (nd h : List Char) :
    containsChars nd h = true ↔ ∃ a b, h = a ++ nd ++ b := by
  induction h with
  | nil =>
    simp only [containsChars, startsWithChars_iff]
    constructor
    · rintro ⟨t, ht⟩
      exact ⟨[], t, ht⟩
    · rintro ⟨a, b, hab⟩
      rcases List.append_eq_nil.mp (List.append_eq_nil.mp hab.symm).1 with ⟨rfl, rfl⟩
      exact ⟨b, hab⟩
  | cons c t ih =>
    simp only [containsChars, Bool.or_eq_true, startsWithChars_iff, ih]
    constructor
    · rintro (⟨u, hu⟩ | ⟨a, b, hab⟩)
      · exact ⟨[], u, hu⟩
      · exact ⟨c :: a, b, by simp [hab]⟩
    · rintro ⟨a, b, hab⟩
      cases a with
      | nil => exact Or.inl ⟨b, by simpa using hab⟩
      | cons x xs =>
        simp only [List.cons_append, List.cons.injEq] at hab
        exact Or.inr ⟨xs, b, hab.2⟩

/-- Unfolding of the label-walk loop: the non-status labels in order, whether
a status label was found, and whether a found status label differs from the
target. -/
theorem buildLabels_eq (target : String) (ls : List String) :
    buildLabels target ls =
      (ls.filter (fun l => !isStatusLabel l),
       ls.any (fun l => isStatusLabel l),
       ls.any (fun l => isStatusLabel l && l != target)) := by
  induction ls with
  | nil => rfl
  | cons l ls ih =>
    simp only [buildLabels, ih, List.filter_cons, List.any_cons]
    by_cases h : isStatusLabel l = true
    · simp [h]
    · simp [h]

/-- Unfolding of `labelsNeedUpdating` and `newLabels` from
`updateIssueReviewLabels`. -/
theorem labelDecision_eq (r : ReviewRequest) :
    labelDecision r =
      (!(r.issue.labels.any (fun l => isStatusLabel l)) ||
        r.issue.labels.any
          (fun l => isStatusLabel l && l != CalculateAppropriateStatus r),
       CalculateAppropriateStatus r ::
         r.issue.labels.filter (fun l => !isStatusLabel l)) := by
  simp [labelDecision, buildLabels_eq]

/-- The computed status is always one of the three status labels. -/
theorem isStatusLabel_status (r : ReviewRequest) :
    isStatusLabel (CalculateAppropriateStatus r) = true := by
  unfold CalculateAppropriateStatus
  by_cases h1 : IsWIP r = true <;> by_cases h2 : IsCaked r = true <;>
    simp [h1, h2] <;> decide

/-- A review whose title does not mention wip, with one caked comment and
current labels `["wip", "team:x"]`. -/
def rSwap : ReviewRequest :=
  ⟨⟨12, "Add feature", "body", "http://x", ["wip", "team:x"], true⟩,
    ⟨"o", "r"⟩, ["looks good :cake:"]⟩

/-- A review whose status label already equals the computed target. -/
def rInPlace : ReviewRequest :=
  ⟨⟨13, "Add feature", "body", "http://x", ["caked", "team:x"], true⟩,
    ⟨"o", "r"⟩, ["looks good :cake:"]⟩

/-- A review carrying no status label at all. -/
def rNoStatus : ReviewRequest :=
  ⟨⟨14, "Add feature", "body", "http://x", [], true⟩, ⟨"o", "r"⟩, []⟩

/-- C1: the status classifier is a pure function of the title and the comment
bodies with fixed precedence: a case-insensitive `wip` substring in the title
gives `wip` regardless of comments; otherwise a `:cake:` substring in some
comment body gives `caked`; otherwise `awaiting-cake`. The issue body is
never consulted. -/
theorem c1_status_classifier (r : ReviewRequest) :
    (CalculateAppropriateStatus r = WIPLabel ↔
      ∃ a b, lowerStr r.issue.title = a ++ "wip".toList ++ b) ∧
    ((¬ ∃ a b, lowerStr r.issue.title = a ++ "wip".toList ++ b) →
      (CalculateAppropriateStatus r = CakedLabel ↔
        ∃ c ∈ r.comments, ∃ a b, c.toList = a ++ ":cake:".toList ++ b)) ∧
    ((¬ ∃ a b, lowerStr r.issue.title = a ++ "wip".toList ++ b) →
      (¬ ∃ c ∈ r.comments, ∃ a b, c.toList = a ++ ":cake:".toList ++ b) →
      CalculateAppropriateStatus r = AwaitingCakeLabel) ∧
    (∀ b, CalculateAppropriateStatus
        { r with issue := { r.issue with body := b } } =
      CalculateAppropriateStatus r) := by
  have hW : IsWIP r = true ↔
      ∃ a b, lowerStr r.issue.title = a ++ "wip".toList ++ b := by
    unfold IsWIP
    exact containsChars_iff _ _
  have hC : IsCaked r = true ↔
      ∃ c ∈ r.comments, ∃ a b, c.toList = a ++ ":cake:".toList ++ b := by
    unfold IsCaked
    simp only [List.any_eq_true, strContains]
    constructor
    · rintro ⟨c, hc, h⟩
      exact ⟨c, hc, (containsChars_iff _ _).mp h⟩
    · rintro ⟨c, hc, h⟩
      exact ⟨c, hc, (containsChars_iff _ _).mpr h⟩
  refine ⟨?_, ?_, ?_, fun b => rfl⟩
  · rw [← hW]
    unfold CalculateAppropriateStatus
    by_cases h : IsWIP r = true
    · simp [h]
    · by_cases h2 : IsCaked r = true <;> simp [h, h2] <;> decide
  · intro hnw
    have hIW : IsWIP r = false := by
      cases hh : IsWIP r
      · rfl
      · exact absurd (hW.mp hh) hnw
    rw [← hC]
    unfold CalculateAppropriateStatus
    by_cases h2 : IsCaked r = true
    · simp [hIW, h2]
    · simp [hIW, h2]
      decide
  · intro hnw hnc
    have hIW : IsWIP r = false := by
      cases hh : IsWIP r
      · rfl
      · exact absurd (hW.mp hh) hnw
    have hIC : IsCaked r = false := by
      cases hh : IsCaked r
      · rfl
      · exact absurd (hC.mp hh) hnc
    unfold CalculateAppropriateStatus
    simp [hIW, hIC]

/-- Witness for C1 at a concrete input: a title containing `WIP` classifies
as `wip`. -/
theorem c1_status_classifier_witness :
    CalculateAppropriateStatus
      ⟨⟨3, "WIP: add parse step", "b", "u", [], true⟩, ⟨"o", "r"⟩,
        ["has :cake: anyway"]⟩ = WIPLabel :=
  (c1_status_classifier _).1.mpr ⟨[], ": add parse step".toList, by decide⟩

/-- C2: the submitted label set is the target status followed by every
current non-status label in order; it contains exactly one status label, and
on current labels `["wip", "team:x"]` with target `caked` it is exactly
`["caked", "team:x"]`. -/
theorem c2_label_set_delta (r : ReviewRequest) :
    (labelDecision r).2 =
      CalculateAppropriateStatus r ::
        r.issue.labels.filter (fun l => !isStatusLabel l) ∧
    (labelDecision r).2.countP (fun l => isStatusLabel l) = 1 ∧
    CalculateAppropriateStatus rSwap = CakedLabel ∧
    (labelDecision rSwap).2 = [CakedLabel, "team:x"] := by
  refine ⟨by simp [labelDecision_eq], ?_, by decide, by decide⟩
  have h0 :
      (r.issue.labels.filter (fun l => !isStatusLabel l)).countP
        (fun l => isStatusLabel l) = 0 := by
    apply List.countP_eq_zero.mpr
    intro l hl
    have := (List.mem_filter.mp hl).2
    simp only [Bool.not_eq_true'] at this
    simp [this]
  rw [labelDecision_eq, List.countP_cons, h0]
  simp [isStatusLabel_status r]

/-- C3: a replace-all write is issued iff no status label is present or some
present status label differs from the target; when the present status labels
already equal the target no write is issued; at most one call is made, and a
write carries exactly the computed `newLabels`. -/
theorem c3_write_condition (r : ReviewRequest) :
    ((updateIssueReviewLabels r ≠ []) ↔
      ((∀ l ∈ r.issue.labels, isStatusLabel l = false) ∨
        (∃ l ∈ r.issue.labels,
          isStatusLabel l = true ∧ l ≠ CalculateAppropriateStatus r))) ∧
    ((∃ l ∈ r.issue.labels, isStatusLabel l = true) →
      (∀ l ∈ r.issue.labels, isStatusLabel l = true →
        l = CalculateAppropriateStatus r) →
      updateIssueReviewLabels r = []) ∧
    (updateIssueReviewLabels r).length ≤ 1 ∧
    (updateIssueReviewLabels r ≠ [] →
      updateIssueReviewLabels r = [(labelDecision r).2]) := by
  have hcond : (labelDecision r).1 = true ↔
      ((∀ l ∈ r.issue.labels, isStatusLabel l = false) ∨
        (∃ l ∈ r.issue.labels,
          isStatusLabel l = true ∧ l ≠ CalculateAppropriateStatus r)) := by
    rw [labelDecision_eq]
    simp only [Bool.or_eq_true, Bool.not_eq_true', List.any_eq_false,
      List.any_eq_true, Bool.and_eq_true, bne_iff_ne, ne_eq]
    constructor
    · rintro (h | ⟨l, hl, hs, hne⟩)
      · exact Or.inl (fun l hl => by simpa using h l hl)
      · exact Or.inr ⟨l, hl, hs, hne⟩
    · rintro (h | ⟨l, hl, hs, hne⟩)
      · exact Or.inl (fun l hl => by simpa using h l hl)
      · exact Or.inr ⟨l, hl, hs, hne⟩
  constructor
  · rw [← hcond]
    unfold updateIssueReviewLabels
    by_cases h : (labelDecision r).1 = true <;> simp [h]
  refine ⟨?_, ?_, ?_⟩
  · intro hex hall
    have : (labelDecision r).1 = false := by
      cases hh : (labelDecision r).1
      · rfl
      · rcases hcond.mp hh with h | ⟨l, hl, hs, hne⟩
        · rcases hex with ⟨l, hl, hs⟩
          rw [h l hl] at hs
          cases hs
        · exact absurd (hall l hl hs) hne
    simp [updateIssueReviewLabels, this]
  · unfold updateIssueReviewLabels
    by_cases h : (labelDecision r).1 = true <;> simp [h]
  · unfold updateIssueReviewLabels
    by_cases h : (labelDecision r).1 = true <;> simp [h]

/-- Witness for C3 at concrete inputs: with the status label equal to the
target no write is issued; with no status label present a write is issued. -/
theorem c3_write_condition_witness :
    updateIssueReviewLabels rInPlace = [] ∧
    updateIssueReviewLabels rNoStatus ≠ [] :=
  ⟨(c3_write_condition rInPlace).2.1 ⟨"caked", by decide, by decide⟩
      (by decide),
    (c3_write_condition rNoStatus).1.mpr (Or.inl (by decide))⟩

/-- Counterexample for C5: on a ReviewRequest with no status label, the
reconciler is not idempotent on the unchanged value: each of two successive
invocations on the same value issues a replace-all write, so two writes are
issued in total and the second invocation is not a no-op. -/
theorem c5_counterexample :
    updateIssueReviewLabels rNoStatus = [[AwaitingCakeLabel]] ∧
    (updateIssueReviewLabels rNoStatus).length +
      (updateIssueReviewLabels rNoStatus).length = 2 := by
  decide

/-- C5 amended: one invocation issues at most one write, and reconciling the
ReviewRequest whose labels have been updated to the submitted set (title and
comments unchanged) issues no write, so the submitted label set is a fixed
point and a retry performed after the write has landed is a no-op. -/
theorem c5_amended_idempotence (r : ReviewRequest) :
    (updateIssueReviewLabels r).length ≤ 1 ∧
    updateIssueReviewLabels
      { r with issue := { r.issue with labels := (labelDecision r).2 } } = [] := by
  constructor
  · unfold updateIssueReviewLabels
    by_cases h : (labelDecision r).1 = true <;> simp [h]
  · set r2 : ReviewRequest :=
      { r with issue := { r.issue with labels := (labelDecision r).2 } } with hr2
    have hstat : CalculateAppropriateStatus r2 = CalculateAppropriateStatus r := rfl
    have hlab : r2.issue.labels =
        CalculateAppropriateStatus r ::
          r.issue.labels.filter (fun l => !isStatusLabel l) := by
      rw [hr2]
      simp [labelDecision_eq]
    have hdec : (labelDecision r2).1 = false := by
      rw [labelDecision_eq, hstat, hlab]
      simp only [List.any_cons, isStatusLabel_status r, Bool.true_and,
        Bool.true_or, Bool.not_true, Bool.false_or, bne_self_eq_false,
        Bool.false_or]
      apply List.any_eq_false.mpr
      intro l hl
      have := (List.mem_filter.mp hl).2
      simp only [Bool.not_eq_true'] at this
      simp [this]
    simp [updateIssueReviewLabels, hdec]

/-- One page of the issue-comments listing: the returned comment bodies plus
the response's `NextPage` value (0 on the last page). -/
structure CommentPage where
  comments : List String
  nextPage : Nat
deriving DecidableEq

/-- `loadComments` (`issues.go` lines 35-59): fetch pages in sequence (the
k-th list element answers the k-th fetch), return the first error
immediately, otherwise accumulate the bodies and stop when the response's
`NextPage` is 0; `review.comments` is assigned only after the loop ends. -/
def loadComments {E : Type} : List (Except E CommentPage) → Except E (List String)
  | [] => Except.ok []
  | Except.error e :: _ => Except.error e
  | Except.ok p :: rest =>
    if p.nextPage == 0 then Except.ok p.comments
    else
      match loadComments rest with
      | Except.error e => Except.error e
      | Except.ok cs => Except.ok (p.comments ++ cs)

/-- `ReviewRequestFromIssue` (`issues.go` lines 168-177): builds the
ReviewRequest and calls `loadComments`, discarding its error value; when the
fetch fails the `comments` field keeps its zero value, the empty sequence. -/
def ReviewRequestFromIssue {E : Type} (r : GRepo) (i : GIssue)
    (pages : List (Except E CommentPage)) : ReviewRequest :=
  { issue := i, repo := r,
    comments :=
      match loadComments pages with
      | Except.ok cs => cs
      | Except.error _ => [] }

/-- A comment-page chain in which every fetch succeeds, every page but the
last announces a following page, and the last page has `NextPage = 0`. -/
def commentChainClosed {E : Type} : List (Except E CommentPage) → Bool
  | [] => false
  | Except.error _ :: _ => false
  | [Except.ok p] => p.nextPage == 0
  | Except.ok p :: q :: rest =>
    (p.nextPage != 0) && commentChainClosed (q :: rest)

/-- The bodies carried by one response of a comment-page chain. -/
def pageBodies {E : Type} : Except E CommentPage → List String
  | Except.ok p => p.comments
  | Except.error _ => []

/-- A two-page comment fetch whose second page errors out; the first page
already carries a cake marker. -/
def cakePages : List (Except String CommentPage) :=
  [Except.ok ⟨["ship it :cake:"], 2⟩, Except.error "boom"]

/-- The issue whose comments are fetched through `cakePages`. -/
def issuePartial : GIssue := ⟨9, "Add feature", "b", "u", ["caked"], true⟩

/-- Counterexample for C6: a ReviewRequest built from a partially failed
comment fetch is still classified. The fetch of the second comment page
fails, `ReviewRequestFromIssue` discards the error and returns the
ReviewRequest with an empty comment list, and the classifier runs on it,
yielding `awaiting-cake` — the reconciler would even issue a write stripping
the correct `caked` label. -/
theorem c6_counterexample :
    loadComments cakePages = Except.error "boom" ∧
    (ReviewRequestFromIssue ⟨"o", "r"⟩ issuePartial cakePages).comments = [] ∧
    CalculateAppropriateStatus
      (ReviewRequestFromIssue ⟨"o", "r"⟩ issuePartial cakePages) =
        AwaitingCakeLabel ∧
    updateIssueReviewLabels
      (ReviewRequestFromIssue ⟨"o", "r"⟩ issuePartial cakePages) =
        [[AwaitingCakeLabel]] := by
  refine ⟨rfl, rfl, ?_, ?_⟩ <;> decide

/-- C6 amended: the comments field is never a partial page prefix — on a
successful fetch it is exactly the accumulated sequence, and a closed chain
is accumulated to exhaustion; but on a failed fetch the error is discarded
and the ReviewRequest is still built (and subsequently classified) with an
empty comment list. -/
theorem c6_amended_full_fetch {E : Type} (pages : List (Except E CommentPage))
    (repo : GRepo) (i : GIssue) :
    (∀ cs, loadComments pages = Except.ok cs →
      (ReviewRequestFromIssue repo i pages).comments = cs) ∧
    (commentChainClosed pages = true →
      loadComments pages = Except.ok ((pages.map pageBodies).flatten)) ∧
    (∀ e, loadComments pages = Except.error e →
      (ReviewRequestFromIssue repo i pages).comments = []) := by
  refine ⟨?_, ?_, ?_⟩
  · intro cs h
    simp [ReviewRequestFromIssue, h]
  · intro h
    induction pages with
    | nil => cases h
    | cons p rest ih =>
      cases p with
      | error e => cases h
      | ok p =>
        cases rest with
        | nil =>
          have hp : p.nextPage == 0 := by
            simpa [commentChainClosed] using h
          simp [loadComments, hp, pageBodies]
        | cons q rest2 =>
          have hsplit := h
          simp only [commentChainClosed, Bool.and_eq_true, bne_iff_ne,
            ne_eq] at hsplit
          have hnz : (p.nextPage == 0) = false := by
            simp [hsplit.1]
          rw [loadComments, if_neg (by simp [hnz]), ih hsplit.2]
          simp [pageBodies]
  · intro e h
    simp [ReviewRequestFromIssue, h]

/-- Witness for C6 amended: a closed two-page chain accumulates both pages
into the built ReviewRequest. -/
theorem c6_amended_full_fetch_witness :
    (ReviewRequestFromIssue (E := String) ⟨"o", "r"⟩ issuePartial
      [Except.ok ⟨["first"], 2⟩, Except.ok ⟨["second :cake:"], 0⟩]).comments =
      ["first", "second :cake:"] :=
  (c6_amended_full_fetch
    [Except.ok ⟨["first"], 2⟩, Except.ok ⟨["second :cake:"], 0⟩]
    ⟨"o", "r"⟩ issuePartial).1 _
    ((c6_amended_full_fetch
      [Except.ok ⟨["first"], 2⟩, Except.ok ⟨["second :cake:"], 0⟩]
      ⟨"o", "r"⟩ issuePartial).2.1 (by decide))

/-- The `rel="next"` marker searched for in each Link segment. -/
def relNextChars : List Char := "rel=\"next\"".toList

/-- Inner loop of `ghNextPageURL` (`issues.go` lines 195-215): scan the
comma-separated link entries, returning the bracket-stripped href of the
first entry having at least two segments, an angle-bracketed href, and a
later segment containing `rel="next"`; empty when no entry qualifies. -/
def scanLinkEntries : List (List Char) → List Char
  | [] => []
  | link :: rest =>
    match splitChar ';' (trimChars link) with
    | [] => scanLinkEntries rest
    | s0 :: srest =>
      if srest.isEmpty then scanLinkEntries rest
      else if !(startsChar '<' s0 && endsChar '>' s0) then scanLinkEntries rest
      else if srest.any (fun seg => containsChars relNextChars seg) then
        (s0.drop 1).dropLast
      else scanLinkEntries rest

/-- `ghNextPageURL` (`issues.go` lines 189-219) applied to the `Link` header
values of a response: the href of the first `rel="next"` link of the first
header value, or the empty string when there is none. -/
def ghNextPageURL (links : List String) : String :=
  match links with
  | [] => ""
  | l0 :: _ => String.mk (scanLinkEntries (splitChar ',' l0.toList))

/-- The source's `Issue` wrapper (`issues.go` lines 109-113): an issue of the
organisation listing together with its repository. -/
structure OrgIssue where
  issue : GIssue
  repository : GRepo
deriving DecidableEq

/-- One page of the organisation issue listing with its `Link` header values. -/
structure OrgPage where
  issues : List OrgIssue
  linkHeader : List String
deriving DecidableEq

/-- The ReviewRequests built from one page of the organisation listing:
plain issues (no pull-request linkage) are discarded, the rest are built via
`ReviewRequestFromIssue`; `fetchComments` answers the nested comment
pagination for a given issue number. -/
def pageReviews {E : Type} (fetchComments : Int → List (Except E CommentPage))
    (p : OrgPage) : List ReviewRequest :=
  (p.issues.filter (fun i => i.issue.prLinked)).map
    (fun i => ReviewRequestFromIssue i.repository i.issue
      (fetchComments i.issue.number))

/-- `ReviewRequestsInOrg` (`issues.go` lines 221-260): fetch pages in
sequence (the k-th list element answers the k-th fetch), return the first
error immediately, keep only pull-request-backed issues and build their
ReviewRequests, stopping as soon as `ghNextPageURL` yields the empty string.
Returns the accumulated ReviewRequests and the number of fetches performed. -/
def ReviewRequestsInOrg {E : Type}
    (fetchComments : Int → List (Except E CommentPage)) :
    List (Except E OrgPage) → Except E (List ReviewRequest × Nat)
  | [] => Except.ok ([], 0)
  | Except.error e :: _ => Except.error e
  | Except.ok p :: rest =>
    if ghNextPageURL p.linkHeader == "" then
      Except.ok (pageReviews fetchComments p, 1)
    else
      match ReviewRequestsInOrg fetchComments rest with
      | Except.error e => Except.error e
      | Except.ok (more, n) =>
        Except.ok (pageReviews fetchComments p ++ more, n + 1)

/-- C7: given three pages, the first two carrying a next link and the third
terminal, the walker performs exactly three fetches and returns the pages'
items concatenated in server order (their pull-request-backed issues built
in order; when every item is pull-request-backed this is the concatenation
of all items); it aborts on the first request error is and propagates it. -/
theorem c7_pagination_walker {E : Type}
    (fetchComments : Int → List (Except E CommentPage)) (p1 p2 p3 : OrgPage)
    (e : E) :
    (ghNextPageURL p1.linkHeader ≠ "" → ghNextPageURL p2.linkHeader ≠ "" →
      ghNextPageURL p3.linkHeader = "" →
      ReviewRequestsInOrg fetchComments
          [Except.ok p1, Except.ok p2, Except.ok p3] =
        Except.ok (pageReviews fetchComments p1 ++
          (pageReviews fetchComments p2 ++ pageReviews fetchComments p3),
          3)) ∧
    ((∀ i ∈ p1.issues ++ p2.issues ++ p3.issues, i.issue.prLinked = true) →
      pageReviews fetchComments p1 ++
        (pageReviews fetchComments p2 ++ pageReviews fetchComments p3) =
        (p1.issues ++ p2.issues ++ p3.issues).map
          (fun i => ReviewRequestFromIssue i.repository i.issue
            (fetchComments i.issue.number))) ∧
    (∀ rest, ReviewRequestsInOrg fetchComments (Except.error e :: rest) =
      Except.error e) ∧
    (∀ rest, ghNextPageURL p1.linkHeader ≠ "" →
      ReviewRequestsInOrg fetchComments
        (Except.ok p1 :: Except.error e :: rest) = Except.error e) := by
  refine ⟨?_, ?_, fun rest => rfl, ?_⟩
  · intro h1 h2 h3
    have e1 : (ghNextPageURL p1.linkHeader == "") = false := by
      simpa using h1
    have e2 : (ghNextPageURL p2.linkHeader == "") = false := by
      simpa using h2
    have e3 : (ghNextPageURL p3.linkHeader == "") = true := by
      simpa using h3
    simp [ReviewRequestsInOrg, e1, e2, e3]
  · intro hall
    have f1 : p1.issues.filter (fun i => i.issue.prLinked) = p1.issues :=
      List.filter_eq_self.mpr fun i hi => hall i (by simp [hi])
    have f2 : p2.issues.filter (fun i => i.issue.prLinked) = p2.issues :=
      List.filter_eq_self.mpr fun i hi => hall i (by simp [hi])
    have f3 : p3.issues.filter (fun i => i.issue.prLinked) = p3.issues :=
      List.filter_eq_self.mpr fun i hi => hall i (by simp [hi])
    simp [pageReviews, f1, f2, f3]
  · intro rest h1
    have e1 : (ghNextPageURL p1.linkHeader == "") = false := by
      simpa using h1
    simp [ReviewRequestsInOrg, e1]

/-- A Link header announcing a next page and a last page. -/
def linkNext : List String :=
  ["<https://api.github.com/orgs/g/issues?page=2>; rel=\"next\", <https://api.github.com/orgs/g/issues?page=5>; rel=\"last\""]

/-- A Link header carrying only a prev relation, hence no next page. -/
def linkStop : List String :=
  ["<https://api.github.com/orgs/g/issues?page=1>; rel=\"prev\""]

/-- First concrete organisation page: one pull-request issue, next link set. -/
def opg1 : OrgPage :=
  ⟨[⟨⟨1, "Add a", "", "u1", [], true⟩, ⟨"o", "r"⟩⟩], linkNext⟩

/-- Second concrete organisation page: one plain issue, next link set. -/
def opg2 : OrgPage :=
  ⟨[⟨⟨2, "Add b", "", "u2", [], false⟩, ⟨"o", "r"⟩⟩], linkNext⟩

/-- Terminal concrete organisation page: one pull-request issue, no next. -/
def opg3 : OrgPage :=
  ⟨[⟨⟨3, "Add c", "", "u3", [], true⟩, ⟨"o", "r"⟩⟩], linkStop⟩

/-- Witness for C7 at concrete pages with real Link headers: three fetches,
concatenated results, the plain issue of page 2 discarded. -/
theorem c7_pagination_walker_witness :
    ReviewRequestsInOrg (E := String) (fun _ => [])
        [Except.ok opg1, Except.ok opg2, Except.ok opg3] =
      Except.ok (pageReviews (E := String) (fun _ => []) opg1 ++
        (pageReviews (E := String) (fun _ => []) opg2 ++
          pageReviews (E := String) (fun _ => []) opg3),
        3) :=
  (c7_pagination_walker (fun _ => []) opg1 opg2 opg3 "err").1
    (by decide) (by decide) (by decide)

/-- A repository label: the `Name` and `Color` fields of `github.Label`
that the source dereferences. -/
structure GLabel where
  name : String
  color : String
deriving DecidableEq

/-- The remote label-mutation calls issued by the provisioner:
`CreateLabel`, `EditLabel` (lookup name plus new content) and `DeleteLabel`. -/
inductive LabelWrite where
  | createL : GLabel → LabelWrite
  | editL : String → GLabel → LabelWrite
  | deleteL : String → LabelWrite
deriving DecidableEq

/-- `LabelColors` (`issues.go` lines 24-31) as an association list; the Go
map iteration order is arbitrary and here fixed to declaration order. -/
def LabelColors : List (String × String) :=
  [(WIPLabel, "207de5"), (CakedLabel, "009800"), (AwaitingCakeLabel, "eb6420")]

/-- `deprecatedLabels` (`issues.go` line 32). -/
def deprecatedLabels : List String := ["Awaiting Cake"]

/-- The per-label scan of `setupReviewFlagsInRepo` (`issues.go` lines
330-346): walk the fetched labels in order; `none` when no label matches
(`found = false`), otherwise `some needsUpdating` at the first label
matching exactly (update needed iff the colour differs) or matching only
case-insensitively (update always needed). -/
def scanLabel : List GLabel → String → String → Option Bool
  | [], _, _ => none
  | g :: rest, nm, col =>
    if g.name == nm then some (g.color != col)
    else if ciEq g.name nm then some true
    else scanLabel rest nm col

/-- The create/update calls of one `LabelColors` iteration (`issues.go`
lines 348-356). -/
def canonicalWritesFor (cur : List GLabel) (nm col : String) :
    List LabelWrite :=
  match scanLabel cur nm col with
  | none => [LabelWrite.createL ⟨nm, col⟩]
  | some true => [LabelWrite.editL nm ⟨nm, col⟩]
  | some false => []

/-- The deprecated-label deletions (`issues.go` lines 312-324): one delete
per fetched label matching a deprecated name case-insensitively. -/
def deprecatedWrites (cur : List GLabel) : List LabelWrite :=
  (deprecatedLabels.map (fun d =>
    cur.filterMap (fun g =>
      if ciEq g.name d then some (LabelWrite.deleteL g.name) else none))).flatten

/-- The remote calls of one `setupReviewFlagsInRepo` run (`issues.go` lines
302-364) against the fetched label list `cur`: the deprecated deletions,
then per canonical label a create or update when needed. -/
def setupReviewFlagsInRepo (cur : List GLabel) : List LabelWrite :=
  deprecatedWrites cur ++
    (LabelColors.map (fun lc => canonicalWritesFor cur lc.1 lc.2)).flatten

/-- Effect of one remote call on the repository's label collection. GitHub
resolves label names case-insensitively, so delete and edit affect the
labels whose stored name matches the request name case-insensitively, and
edit installs the requested name and colour. -/
def applyWrite (s : List GLabel) : LabelWrite → List GLabel
  | LabelWrite.deleteL n => s.filter (fun g => !(ciEq g.name n))
  | LabelWrite.editL n l => s.map (fun g => if ciEq g.name n then l else g)
  | LabelWrite.createL l => s ++ [l]

/-- Effect of a call sequence, applied left to right. -/
def applyWrites (s : List GLabel) (ws : List LabelWrite) : List GLabel :=
  ws.foldl applyWrite s

/-- Case-insensitive equality unfolds to equality of lower-cased contents. -/
theorem ciEq_eq_true_iff (a b : String) :
    ciEq a b = true ↔ lowerStr a = lowerStr b := by
  simp [ciEq]

/-- The deprecated deletions with the singleton deprecated list unfolded. -/
theorem deprecatedWrites_eq (cur : List GLabel) :
    deprecatedWrites cur =
      cur.filterMap (fun g =>
        if ciEq g.name "Awaiting Cake" then some (LabelWrite.deleteL g.name)
        else none) := by
  simp [deprecatedWrites, deprecatedLabels]

/-- Applying every delete derived from the deprecated scan removes exactly
the case-insensitive matches of the deprecated name. -/
theorem apply_deprecatedWrites (s : List GLabel) :
    applyWrites s (deprecatedWrites s) =
      s.filter (fun g => !(ciEq g.name "Awaiting Cake")) := by
  have hmem : ∀ w ∈ deprecatedWrites s, ∃ n, w = LabelWrite.deleteL n ∧
      lowerStr n = lowerStr "Awaiting Cake" := by
    intro w hw
    rw [deprecatedWrites_eq] at hw
    rcases List.mem_filterMap.mp hw with ⟨g, hg, hgw⟩
    by_cases hci : ciEq g.name "Awaiting Cake" = true
    · rw [if_pos hci] at hgw
      cases hgw
      exact ⟨g.name, rfl, (ciEq_eq_true_iff _ _).mp hci⟩
    · rw [if_neg hci] at hgw
      cases hgw
  have hnoop : ∀ ws : List LabelWrite,
      (∀ w ∈ ws, ∃ n, w = LabelWrite.deleteL n ∧
        lowerStr n = lowerStr "Awaiting Cake") →
      ∀ t : List GLabel,
        (∀ g ∈ t, ciEq g.name "Awaiting Cake" = false) →
        applyWrites t ws = t := by
    intro ws
    induction ws with
    | nil => intro _ t _; rfl
    | cons w ws ih =>
      intro hws t ht
      obtain ⟨n, rfl, hn⟩ := hws w (List.mem_cons_self _ _)
      have happ : applyWrite t (LabelWrite.deleteL n) = t := by
        unfold applyWrite
        apply List.filter_eq_self.mpr
        intro g hg
        have : ciEq g.name n = false := by
          cases hh : ciEq g.name n
          · rfl
          · exfalso
            have := (ciEq_eq_true_iff _ _).mp hh
            rw [hn] at this
            have h2 := ht g hg
            rw [(ciEq_eq_true_iff g.name "Awaiting Cake").2 this] at h2
            cases h2
        simp [this]
      show applyWrites (applyWrite t (LabelWrite.deleteL n)) ws = t
      rw [happ]
      exact ih (fun w hw => hws w (List.mem_cons_of_mem _ hw)) t ht
  cases hd : deprecatedWrites s with
  | nil =>
    have hall : ∀ g ∈ s, ciEq g.name "Awaiting Cake" = false := by
      intro g hg
      rw [deprecatedWrites_eq] at hd
      have := List.filterMap_eq_nil_iff.mp hd g hg
      cases hh : ciEq g.name "Awaiting Cake"
      · rfl
      · rw [if_pos hh] at this
        cases this
    show applyWrites s [] = _
    have : s.filter (fun g => !(ciEq g.name "Awaiting Cake")) = s :=
      List.filter_eq_self.mpr fun g hg => by simp [hall g hg]
    rw [this]
    rfl
  | cons w ws =>
    obtain ⟨n, rfl, hn⟩ := hmem w (hd ▸ List.mem_cons_self _ _)
    have happ : applyWrite s (LabelWrite.deleteL n) =
        s.filter (fun g => !(ciEq g.name "Awaiting Cake")) := by
      unfold applyWrite
      apply List.filter_congr
      intro g hg
      have : ciEq g.name n = ciEq g.name "Awaiting Cake" := by
        unfold ciEq
        rw [hn]
      rw [this]
    show applyWrites (applyWrite s (LabelWrite.deleteL n)) ws = _
    rw [happ]
    apply hnoop ws (fun w hw => hmem w (hd ▸ List.mem_cons_of_mem _ hw))
    intro g hg
    have := (List.mem_filter.mp hg).2
    simpa using this

/-- Scanning for a canonical label ignores elements whose lower-cased name
differs from the scanned name, in particular deprecated matches removed by
the filter. -/
theorem scanLabel_filter_dep (s : List GLabel) (nm col : String)
    (h : lowerStr nm ≠ lowerStr "Awaiting Cake") :
    scanLabel (s.filter (fun g => !(ciEq g.name "Awaiting Cake"))) nm col =
      scanLabel s nm col := by
  induction s with
  | nil => rfl
  | cons g rest ih =>
    by_cases hdep : ciEq g.name "Awaiting Cake" = true
    · have hlow := (ciEq_eq_true_iff _ _).mp hdep
      have hx : (g.name == nm) = false := by
        apply beq_eq_false_iff_ne.mpr
        rintro rfl
        exact h hlow
      have hy : ciEq g.name nm = false := by
        cases hh : ciEq g.name nm
        · rfl
        · exact absurd ((ciEq_eq_true_iff _ _).mp hh ▸ hlow) fun hc => h hc
      rw [List.filter_cons_of_neg (by simp [hdep])]
      rw [ih, scanLabel, if_neg (by simp [hx]), if_neg (by simp [hy])]
    · rw [List.filter_cons_of_pos (by simp [hdep])]
      by_cases hx : (g.name == nm) = true
      · rw [scanLabel, if_pos hx, scanLabel, if_pos hx]
      · by_cases hy : ciEq g.name nm = true
        · rw [scanLabel, if_neg (by simp [hx]), if_pos hy,
            scanLabel, if_neg (by simp [hx]), if_pos hy]
        · rw [scanLabel, if_neg (by simp [hx]), if_neg (by simp [hy]),
            scanLabel, if_neg (by simp [hx]), if_neg (by simp [hy]), ih]

/-- Appending a label that does not match the scanned name leaves the scan
result unchanged. -/
theorem scanLabel_append_ne (t : List GLabel) (x : GLabel) (nm col : String)
    (h1 : (x.name == nm) = false) (h2 : ciEq x.name nm = false) :
    scanLabel (t ++ [x]) nm col = scanLabel t nm col := by
  induction t with
  | nil => simp [scanLabel, h1, h2]
  | cons g rest ih =>
    by_cases hx : (g.name == nm) = true
    · simp [scanLabel, hx]
    · by_cases hy : ciEq g.name nm = true
      · simp [scanLabel, hx, hy]
      · simp [scanLabel, hx, hy, ih]

/-- Appending the canonical label itself after a failed scan makes the scan
find it exactly, with the right colour. -/
theorem scanLabel_append_self (t : List GLabel) (nm col : String)
    (h : scanLabel t nm col = none) :
    scanLabel (t ++ [⟨nm, col⟩]) nm col = some false := by
  induction t with
  | nil => simp [scanLabel]
  | cons g rest ih =>
    by_cases hx : (g.name == nm) = true
    · rw [scanLabel, if_pos hx] at h
      cases h
    · by_cases hy : ciEq g.name nm = true
      · rw [scanLabel, if_neg (by simp [hx]), if_pos hy] at h
        cases h
      · rw [scanLabel, if_neg (by simp [hx]), if_neg (by simp [hy])] at h
        simp [scanLabel, hx, hy, ih h]

/-- Editing the matched label to the canonical name and colour makes the
scan find it exactly, with the right colour. -/
theorem scanLabel_applyEdit_self (t : List GLabel) (nm col : String)
    (h : scanLabel t nm col ≠ none) :
    scanLabel (applyWrite t (LabelWrite.editL nm ⟨nm, col⟩)) nm col =
      some false := by
  induction t with
  | nil => exact absurd rfl h
  | cons g rest ih =>
    by_cases hx : (g.name == nm) = true
    · have hci : ciEq g.name nm = true := by
        rw [beq_iff_eq.mp hx]
        simp [ciEq]
      simp [applyWrite, scanLabel, hci]
    · by_cases hy : ciEq g.name nm = true
      · simp [applyWrite, scanLabel, hy]
      · have hrest : scanLabel rest nm col ≠ none := by
          intro hnone
          apply h
          rw [scanLabel, if_neg (by simp [hx]), if_neg (by simp [hy]), hnone]
        have := ih hrest
        simp only [applyWrite] at this
        simp [applyWrite, scanLabel, hx, hy, this]

/-- Editing towards a different canonical name leaves the scan for this
name unchanged. -/
theorem scanLabel_applyEdit_ne (t : List GLabel) (nm col nm2 col2 : String)
    (h : lowerStr nm2 ≠ lowerStr nm) :
    scanLabel (applyWrite t (LabelWrite.editL nm2 ⟨nm2, col2⟩)) nm col =
      scanLabel t nm col := by
  have h1 : (nm2 == nm) = false := by
    apply beq_eq_false_iff_ne.mpr
    rintro rfl
    exact h rfl
  have h2 : ciEq nm2 nm = false := by
    cases hh : ciEq nm2 nm
    · rfl
    · exact absurd ((ciEq_eq_true_iff _ _).mp hh) h
  induction t with
  | nil => rfl
  | cons g rest ih =>
    have ihu := ih
    simp only [applyWrite] at ihu
    by_cases hci : ciEq g.name nm2 = true
    · have hlow := (ciEq_eq_true_iff _ _).mp hci
      have hx : (g.name == nm) = false := by
        apply beq_eq_false_iff_ne.mpr
        rintro rfl
        exact h (hlow ▸ rfl)
      have hy : ciEq g.name nm = false := by
        cases hh : ciEq g.name nm
        · rfl
        · exact absurd (hlow ▸ (ciEq_eq_true_iff _ _).mp hh) h
      simp [applyWrite, scanLabel, hci, hx, hy, h1, h2, ihu]
    · by_cases hx : (g.name == nm) = true
      · simp [applyWrite, scanLabel, hci, hx]
      · by_cases hy : ciEq g.name nm = true
        · simp [applyWrite, scanLabel, hci, hx, hy]
        · simp [applyWrite, scanLabel, hci, hx, hy, ihu]

/-- The canonical scan is unchanged by removing the deprecated matches. -/
theorem canonical_transfer (s0 : List GLabel) (nm col : String)
    (h : lowerStr nm ≠ lowerStr "Awaiting Cake") :
    canonicalWritesFor (s0.filter (fun g => !(ciEq g.name "Awaiting Cake")))
        nm col =
      canonicalWritesFor s0 nm col := by
  unfold canonicalWritesFor
  rw [scanLabel_filter_dep s0 nm col h]

/-- After applying a label's own provisioning writes, the scan for that
label finds it exactly, with the right colour. -/
theorem canonical_step (t : List GLabel) (nm col : String) :
    scanLabel (applyWrites t (canonicalWritesFor t nm col)) nm col =
      some false := by
  unfold canonicalWritesFor
  cases hscan : scanLabel t nm col with
  | none => exact scanLabel_append_self t nm col hscan
  | some b =>
    cases b with
    | false => exact hscan
    | true => exact scanLabel_applyEdit_self t nm col (by simp [hscan])

/-- Applying the provisioning writes of a different canonical label leaves
the scan for this label unchanged. -/
theorem canonical_preserve (t t2 : List GLabel) (nm col nm2 col2 : String)
    (h : lowerStr nm2 ≠ lowerStr nm) :
    scanLabel (applyWrites t (canonicalWritesFor t2 nm2 col2)) nm col =
      scanLabel t nm col := by
  unfold canonicalWritesFor
  cases scanLabel t2 nm2 col2 with
  | none =>
    have h1 : (nm2 == nm) = false := by
      apply beq_eq_false_iff_ne.mpr
      rintro rfl
      exact h rfl
    have h2 : ciEq nm2 nm = false := by
      cases hh : ciEq nm2 nm
      · rfl
      · exact absurd ((ciEq_eq_true_iff _ _).mp hh) h
    exact scanLabel_append_ne t ⟨nm2, col2⟩ nm col h1 h2
  | some b =>
    cases b with
    | false => rfl
    | true => exact scanLabel_applyEdit_ne t nm col nm2 col2 h

/-- A write whose introduced label (if any) does not match a deprecated
name case-insensitively. -/
def writeKeepsClean : LabelWrite → Bool
  | LabelWrite.createL l => !(ciEq l.name "Awaiting Cake")
  | LabelWrite.editL _ l => !(ciEq l.name "Awaiting Cake")
  | LabelWrite.deleteL _ => true

/-- One clean write keeps every stored label clear of deprecated names. -/
theorem applyWrite_clean (s : List GLabel) (w : LabelWrite)
    (hs : ∀ g ∈ s, ciEq g.name "Awaiting Cake" = false)
    (hw : writeKeepsClean w = true) :
    ∀ g ∈ applyWrite s w, ciEq g.name "Awaiting Cake" = false := by
  intro g hg
  cases w with
  | deleteL n => exact hs g (List.mem_filter.mp hg).1
  | createL l =>
    rcases List.mem_append.mp hg with h | h
    · exact hs g h
    · simp only [List.mem_singleton] at h
      subst h
      simpa [writeKeepsClean] using hw
  | editL n l =>
    rcases List.mem_map.mp hg with ⟨g0, hg0, hmap⟩
    by_cases hc : ciEq g0.name n = true
    · rw [if_pos hc] at hmap
      subst hmap
      simpa [writeKeepsClean] using hw
    · rw [if_neg hc] at hmap
      subst hmap
      exact hs g0 hg0

/-- Clean writes keep every stored label clear of deprecated names. -/
theorem applyWrites_clean (ws : List LabelWrite) :
    ∀ s : List GLabel, (∀ g ∈ s, ciEq g.name "Awaiting Cake" = false) →
      (∀ w ∈ ws, writeKeepsClean w = true) →
      ∀ g ∈ applyWrites s ws, ciEq g.name "Awaiting Cake" = false := by
  induction ws with
  | nil => exact fun s hs _ g hg => hs g hg
  | cons w ws ih =>
    intro s hs hws g hg
    exact ih (applyWrite s w)
      (applyWrite_clean s w hs (hws w (List.mem_cons_self _ _)))
      (fun x hx => hws x (List.mem_cons_of_mem _ hx)) g hg

/-- The provisioning writes of a non-deprecated canonical label are clean. -/
theorem canonicalWritesFor_clean (t : List GLabel) (nm col : String)
    (h : ciEq nm "Awaiting Cake" = false) :
    ∀ w ∈ canonicalWritesFor t nm col, writeKeepsClean w = true := by
  intro w hw
  unfold canonicalWritesFor at hw
  cases hscan : scanLabel t nm col <;> rw [hscan] at hw
  case none =>
    simp only [List.mem_singleton] at hw
    subst hw
    simp [writeKeepsClean, h]
  case some b =>
    cases b
    · cases hw
    · simp only [List.mem_singleton] at hw
      subst hw
      simp [writeKeepsClean, h]

/-- A repository with no deprecated label names needs no deletions. -/
theorem deprecatedWrites_eq_nil (F : List GLabel)
    (h : ∀ g ∈ F, ciEq g.name "Awaiting Cake" = false) :
    deprecatedWrites F = [] := by
  rw [deprecatedWrites_eq]
  apply List.filterMap_eq_nil_iff.mpr
  intro g hg
  simp [h g hg]

/-- A canonical label found exactly with the right colour needs no write. -/
theorem canonicalWritesFor_eq_nil (t : List GLabel) (nm col : String)
    (h : scanLabel t nm col = some false) :
    canonicalWritesFor t nm col = [] := by
  unfold canonicalWritesFor
  rw [h]

/-- C8: provisioning converges after one run: starting from any fetched
label state, applying every remote write of one `setupReviewFlagsInRepo`
run yields a state on which a second run issues zero remote writes — no
create, no update, no delete. -/
theorem c8_provisioning_convergence (s0 : List GLabel) :
    setupReviewFlagsInRepo (applyWrites s0 (setupReviewFlagsInRepo s0)) =
      [] := by
  set sA := s0.filter (fun g => !(ciEq g.name "Awaiting Cake")) with hsA
  set w1 := canonicalWritesFor sA WIPLabel "207de5" with hw1def
  set w2 := canonicalWritesFor sA CakedLabel "009800" with hw2def
  set w3 := canonicalWritesFor sA AwaitingCakeLabel "eb6420" with hw3def
  have ht1 : canonicalWritesFor s0 WIPLabel "207de5" = w1 := by
    rw [hw1def, hsA, canonical_transfer s0 WIPLabel "207de5" (by decide)]
  have ht2 : canonicalWritesFor s0 CakedLabel "009800" = w2 := by
    rw [hw2def, hsA, canonical_transfer s0 CakedLabel "009800" (by decide)]
  have ht3 : canonicalWritesFor s0 AwaitingCakeLabel "eb6420" = w3 := by
    rw [hw3def, hsA, canonical_transfer s0 AwaitingCakeLabel "eb6420" (by decide)]
  have hF : applyWrites s0 (setupReviewFlagsInRepo s0) =
      applyWrites (applyWrites (applyWrites sA w1) w2) w3 := by
    rw [setupReviewFlagsInRepo]
    simp only [LabelColors, List.map_cons, List.map_nil, List.flatten_cons,
      List.flatten_nil, List.append_nil]
    rw [ht1, ht2, ht3]
    have hdep := apply_deprecatedWrites s0
    simp only [applyWrites] at hdep ⊢
    rw [List.foldl_append, List.foldl_append, List.foldl_append, hdep, ← hsA]
  have hs1A : scanLabel (applyWrites sA w1) WIPLabel "207de5" = some false := by
    rw [hw1def]
    exact canonical_step sA WIPLabel "207de5"
  have hs2A : scanLabel (applyWrites sA w1) CakedLabel "009800" =
      scanLabel sA CakedLabel "009800" := by
    rw [hw1def]
    exact canonical_preserve sA sA CakedLabel "009800" WIPLabel "207de5"
      (by decide)
  have hs3A : scanLabel (applyWrites sA w1) AwaitingCakeLabel "eb6420" =
      scanLabel sA AwaitingCakeLabel "eb6420" := by
    rw [hw1def]
    exact canonical_preserve sA sA AwaitingCakeLabel "eb6420" WIPLabel
      "207de5" (by decide)
  have hw2F1 : w2 = canonicalWritesFor (applyWrites sA w1) CakedLabel
      "009800" := by
    rw [hw2def]
    unfold canonicalWritesFor
    rw [hs2A]
  have hs2B : scanLabel (applyWrites (applyWrites sA w1) w2) CakedLabel
      "009800" = some false := by
    rw [hw2F1]
    exact canonical_step _ _ _
  have hs1B : scanLabel (applyWrites (applyWrites sA w1) w2) WIPLabel
      "207de5" = some false := by
    rw [hw2def]
    exact (canonical_preserve (applyWrites sA w1) sA WIPLabel "207de5"
      CakedLabel "009800" (by decide)).trans hs1A
  have hs3B : scanLabel (applyWrites (applyWrites sA w1) w2)
      AwaitingCakeLabel "eb6420" = scanLabel sA AwaitingCakeLabel "eb6420" := by
    rw [hw2def]
    exact (canonical_preserve (applyWrites sA w1) sA AwaitingCakeLabel
      "eb6420" CakedLabel "009800" (by decide)).trans hs3A
  have hw3F2 : w3 = canonicalWritesFor
      (applyWrites (applyWrites sA w1) w2) AwaitingCakeLabel "eb6420" := by
    rw [hw3def]
    unfold canonicalWritesFor
    rw [hs3B]
  have hs3C : scanLabel
      (applyWrites (applyWrites (applyWrites sA w1) w2) w3)
      AwaitingCakeLabel "eb6420" = some false := by
    rw [hw3F2]
    exact canonical_step _ _ _
  have hs1C : scanLabel
      (applyWrites (applyWrites (applyWrites sA w1) w2) w3)
      WIPLabel "207de5" = some false := by
    rw [hw3def]
    exact (canonical_preserve (applyWrites (applyWrites sA w1) w2) sA
      WIPLabel "207de5" AwaitingCakeLabel "eb6420" (by decide)).trans hs1B
  have hs2C : scanLabel
      (applyWrites (applyWrites (applyWrites sA w1) w2) w3)
      CakedLabel "009800" = some false := by
    rw [hw3def]
    exact (canonical_preserve (applyWrites (applyWrites sA w1) w2) sA
      CakedLabel "009800" AwaitingCakeLabel "eb6420" (by decide)).trans hs2B
  have hcleanA : ∀ g ∈ sA, ciEq g.name "Awaiting Cake" = false := by
    intro g hg
    rw [hsA] at hg
    have := (List.mem_filter.mp hg).2
    simpa using this
  have hcw1 : ∀ w ∈ w1, writeKeepsClean w = true := by
    rw [hw1def]
    exact canonicalWritesFor_clean sA WIPLabel "207de5" (by decide)
  have hcw2 : ∀ w ∈ w2, writeKeepsClean w = true := by
    rw [hw2def]
    exact canonicalWritesFor_clean sA CakedLabel "009800" (by decide)
  have hcw3 : ∀ w ∈ w3, writeKeepsClean w = true := by
    rw [hw3def]
    exact canonicalWritesFor_clean sA AwaitingCakeLabel "eb6420" (by decide)
  have hcleanF3 : ∀ g ∈ applyWrites (applyWrites (applyWrites sA w1) w2) w3,
      ciEq g.name "Awaiting Cake" = false :=
    applyWrites_clean w3 _
      (applyWrites_clean w2 _ (applyWrites_clean w1 _ hcleanA hcw1) hcw2)
      hcw3
  rw [hF, setupReviewFlagsInRepo, deprecatedWrites_eq_nil _ hcleanF3]
  simp only [LabelColors, List.map_cons, List.map_nil]
  rw [canonicalWritesFor_eq_nil _ _ _ hs1C,
    canonicalWritesFor_eq_nil _ _ _ hs2C,
    canonicalWritesFor_eq_nil _ _ _ hs3C]
  simp

/-- One page of the organisation repository listing with its `NextPage`
value (0 on the last page). -/
structure RepoPage where
  repos : List GRepo
  nextPage : Nat
deriving DecidableEq

/-- `ensureOrgReposHaveLabels` (`issues.go` lines 262-300): walk the
repository pages (the k-th list element answers the k-th fetch), return the
first listing error, and invoke the Label Provisioner
(`setupReviewFlagsInRepo`) once per repository — provisioning errors are
logged, not propagated. Returns the names of the provisioned repositories. -/
def ensureOrgReposHaveLabels {E : Type} :
    List (Except E RepoPage) → Except E (List String)
  | [] => Except.ok []
  | Except.error e :: _ => Except.error e
  | Except.ok p :: rest =>
    if p.nextPage == 0 then Except.ok (p.repos.map (fun r => r.name))
    else
      match ensureOrgReposHaveLabels rest with
      | Except.error e => Except.error e
      | Except.ok more => Except.ok (p.repos.map (fun r => r.name) ++ more)

/-- The observable effects of one `runBulkSync` run: which repositories the
Label Provisioner was invoked on and which issues were reconciled. -/
structure BulkSyncTrace where
  provisionedRepos : List String
  reconciledIssues : List Int
deriving DecidableEq

/-- `runBulkSync` (`main.go` lines 130-167). The first goroutine executes a
bare `return` as its first statement (line 136), before its call to
`ensureOrgReposHaveLabels`, so that call is dead code and no repository is
ever provisioned; the second goroutine loads the organisation's
ReviewRequests and reconciles each (doing nothing further when the listing
fails). -/
def runBulkSync {E : Type} (_repoPages : List (Except E RepoPage))
    (orgPages : List (Except E OrgPage))
    (fetchComments : Int → List (Except E CommentPage)) : BulkSyncTrace :=
  { provisionedRepos := [],
    reconciledIssues :=
      match ReviewRequestsInOrg fetchComments orgPages with
      | Except.error _ => []
      | Except.ok (rrs, _) => rrs.map (fun r => r.issue.number) }

/-- The repository listing used as the concrete bulk-sync failing input:
a single page holding one repository. -/
def repoPagesOne : List (Except String RepoPage) :=
  [Except.ok ⟨[⟨"o", "repo1"⟩], 0⟩]

/-- C4 evidence: on an organisation with one repository, a bulk-sync run
invokes the Label Provisioner on no repository at all — the provisioning
goroutine returns before calling `ensureOrgReposHaveLabels`, although that
(dead) walker would have provisioned the repository. -/
theorem c4_bulk_sync_skips_provisioning :
    (runBulkSync repoPagesOne [Except.ok ⟨[], []⟩]
      (fun _ => [])).provisionedRepos = [] ∧
    ensureOrgReposHaveLabels repoPagesOne = Except.ok ["repo1"] ∧
    (runBulkSync repoPagesOne [Except.ok ⟨[], []⟩]
      (fun _ => [])).provisionedRepos ≠ ["repo1"] := by
  refine ⟨rfl, rfl, ?_⟩
  decide

/-- The optional `Login` field of the payload's repository owner. -/
structure PUser where
  login : Option String
deriving DecidableEq

/-- The optional fields of the payload's `Repository` object. -/
structure PRepo where
  name : Option String
  owner : Option PUser
deriving DecidableEq

/-- The optional fields of a payload or fetched `Issue` object. -/
structure PIssue where
  number : Option Int
  htmlURL : Option String
  title : Option String
  prLinked : Bool
  labels : List String
deriving DecidableEq

/-- The optional fields of the payload's `PullRequest` object. -/
structure PPull where
  number : Option Int
deriving DecidableEq

/-- The decoded webhook payload (`main.go` lines 63-68). -/
structure Payload where
  action : String
  issue : Option PIssue
  repository : Option PRepo
  pullRequest : Option PPull
deriving DecidableEq

/-- The remote tracker calls the webhook handler can make. -/
inductive TrackerCall where
  | issuesGet : TrackerCall
  | listComments : TrackerCall
  | replaceLabels : TrackerCall
deriving DecidableEq

/-- An HTTP response together with the tracker calls made on the way. -/
structure HttpOut where
  status : Nat
  calls : List TrackerCall
deriving DecidableEq

/-- The dereferences of the repository logging block (`main.go` lines
81-86): when a repository is present its name and its owner's login are
dereferenced; `false` means a nil-pointer panic. -/
def logRepoOk : Option PRepo → Bool
  | none => true
  | some rp =>
    rp.name.isSome &&
      (match rp.owner with
       | some ow => ow.login.isSome
       | none => false)

/-- The dereferences of the issue logging block (`main.go` lines 88-93). -/
def logIssueOk : Option PIssue → Bool
  | none => true
  | some i => i.number.isSome && i.htmlURL.isSome

/-- The trigger condition of `main.go` line 95: an issue with a non-zero
number and pull-request linkage. -/
def wantsTrigger (p : Payload) : Bool :=
  match p.issue with
  | some i => (i.number.getD 0 != 0) && i.prLinked
  | none => false

/-- The conversion performed at `main.go` line 117 followed by
`updateIssueReviewLabels` (line 119): builds the core ReviewRequest from the
payload objects (fetching comments, whose errors are discarded), classifies
it — dereferencing the issue title — and on a needed write dereferences the
issue number and consults the replace call's outcome; `none` models a
nil-pointer panic. -/
def runReconcile {E : Type} (rp : PRepo) (i : PIssue)
    (commentPages : List (Except E CommentPage))
    (replaceOutcome : Except E Unit) (calls0 : List TrackerCall) :
    Option HttpOut :=
  match i.title with
  | none => none
  | some t =>
    let rr := ReviewRequestFromIssue
      ⟨(match rp.owner with
        | some ow => ow.login.getD ""
        | none => ""), rp.name.getD ""⟩
      ⟨i.number.getD 0, t, "", i.htmlURL.getD "", i.labels, i.prLinked⟩
      commentPages
    if (labelDecision rr).1 then
      match i.number with
      | none => none
      | some _ =>
        match replaceOutcome with
        | Except.error _ =>
          some ⟨501, calls0 ++ [TrackerCall.listComments,
            TrackerCall.replaceLabels]⟩
        | Except.ok _ =>
          some ⟨200, calls0 ++ [TrackerCall.listComments,
            TrackerCall.replaceLabels]⟩
    else some ⟨200, calls0 ++ [TrackerCall.listComments]⟩

/-- `githubWebhook` (`main.go` lines 49-128): the handler's response and
tracker calls, as a function of the event header, the JSON decode outcome,
the outcome of the issue fetch used for opened pull-request events, the
comment pagination, and the outcome of the replace-labels call; `none`
models a nil-pointer panic. -/
def githubWebhook {E : Type} (event : String) (decoded : Except E Payload)
    (fetchIssue : Except E PIssue)
    (commentPages : List (Except E CommentPage))
    (replaceOutcome : Except E Unit) : Option HttpOut :=
  if !(event == "pull_request" || event == "issue_comment") then
    some ⟨200, []⟩
  else
    match decoded with
    | Except.error _ => some ⟨501, []⟩
    | Except.ok p =>
      if !(logRepoOk p.repository) then none
      else if !(logIssueOk p.issue) then none
      else if wantsTrigger p then
        match p.repository with
        | none => none
        | some rp =>
          match p.issue with
          | none => none
          | some i => runReconcile rp i commentPages replaceOutcome []
      else
        match p.pullRequest with
        | some pr =>
          if p.action == "opened" then
            match p.repository with
            | none => none
            | some rp =>
              match pr.number with
              | none => none
              | some _ =>
                match fetchIssue with
                | Except.error _ => some ⟨501, [TrackerCall.issuesGet]⟩
                | Except.ok i2 =>
                  runReconcile rp i2 commentPages replaceOutcome
                    [TrackerCall.issuesGet]
          else some ⟨200, []⟩
        | none => some ⟨200, []⟩

/-- A decodable payload carrying a pull-request-linked issue but no
repository object. -/
def payloadNoRepo : Payload :=
  ⟨"created", some ⟨some 5, some "u", some "Add step", true, []⟩, none, none⟩

/-- A decodable payload whose repository object lacks an owner login. -/
def payloadNoLogin : Payload :=
  ⟨"opened", none, some ⟨some "r", some ⟨none⟩⟩, some ⟨some 3⟩⟩

/-- A decodable payload whose issue object lacks a number. -/
def payloadNoNumber : Payload :=
  ⟨"created", some ⟨none, some "u", some "Add step", true, []⟩,
    some ⟨some "r", some ⟨some "o"⟩⟩, none⟩

/-- C10: the handler's 200/501 contract holds only when the optional
pointer fields it touches are populated: on each of these successfully
decoded payloads with a handled event type — a pull-request-linked issue
arriving without a repository object, a repository object without an owner
login, and an issue object without a number — the handler dereferences a
nil pointer and panics instead of returning any HTTP status. -/
theorem c10_nil_pointer_panics :
    githubWebhook (E := String) "issue_comment" (Except.ok payloadNoRepo)
      (Except.ok ⟨some 1, some "u", some "t", true, []⟩) []
      (Except.ok ()) = none ∧
    githubWebhook (E := String) "pull_request" (Except.ok payloadNoLogin)
      (Except.ok ⟨some 1, some "u", some "t", true, []⟩) []
      (Except.ok ()) = none ∧
    githubWebhook (E := String) "pull_request" (Except.ok payloadNoNumber)
      (Except.ok ⟨some 1, some "u", some "t", true, []⟩) []
      (Except.ok ()) = none := by
  refine ⟨rfl, rfl, rfl⟩

/-- All optional fields of an issue object that the trigger path touches. -/
def populatedIssue (i : PIssue) : Bool :=
  i.number.isSome && i.htmlURL.isSome && i.title.isSome

/-- The opened-pull-request branch condition (`main.go` line 99), reached
when the issue-trigger condition fails. -/
def openedPath (p : Payload) : Bool :=
  !(wantsTrigger p) && p.pullRequest.isSome && (p.action == "opened")

/-- The precondition under which the handler dereferences no nil pointer:
present payload objects are internally populated, and a repository object
accompanies any path that builds a ReviewRequest. -/
def safePayload (p : Payload) : Bool :=
  logRepoOk p.repository &&
  (match p.issue with
   | none => true
   | some i => populatedIssue i) &&
  (match p.pullRequest with
   | none => true
   | some pr => pr.number.isSome) &&
  (if wantsTrigger p || openedPath p then p.repository.isSome else true)

/-- The issue the handler reconciles, when any: the payload issue on the
direct trigger path, the fetched issue on the opened-pull-request path. -/
def triggeredIssue {E : Type} (p : Payload) (fetchIssue : Except E PIssue) :
    Option PIssue :=
  if wantsTrigger p then p.issue
  else if openedPath p then
    match fetchIssue with
    | Except.ok i2 => some i2
    | Except.error _ => none
  else none

/-- Whether reconciling the given issue needs a remote write (the
reconciler's decision is independent of the repository object). -/
def reconcileWriteNeeded {E : Type} (i : PIssue)
    (commentPages : List (Except E CommentPage)) : Bool :=
  (labelDecision (ReviewRequestFromIssue ⟨"", ""⟩
    ⟨i.number.getD 0, i.title.getD "", "", i.htmlURL.getD "", i.labels,
      i.prLinked⟩ commentPages)).1

/-- The reconciler's decision ignores the repository object. -/
theorem labelDecision_repo_irrelevant {E : Type} (i : GIssue)
    (r1 r2 : GRepo) (cp : List (Except E CommentPage)) :
    labelDecision (ReviewRequestFromIssue r1 i cp) =
      labelDecision (ReviewRequestFromIssue r2 i cp) := rfl

/-- Outcome of the reconcile step on a populated issue: a 200 or 501
response, 501 exactly when a write was needed and the replace call failed. -/
theorem runReconcile_spec {E : Type} (rp : PRepo) (i : PIssue)
    (cp : List (Except E CommentPage)) (ro : Except E Unit)
    (calls0 : List TrackerCall) (hi : populatedIssue i = true) :
    ∃ out, runReconcile rp i cp ro calls0 = some out ∧
      (out.status = 200 ∨ out.status = 501) ∧
      (out.status = 501 ↔
        (reconcileWriteNeeded i cp = true ∧ ∃ e, ro = Except.error e)) := by
  obtain ⟨n, hn⟩ : ∃ n, i.number = some n := by
    cases hh : i.number
    · simp [populatedIssue, hh] at hi
    · exact ⟨_, rfl⟩
  obtain ⟨t, ht⟩ : ∃ t, i.title = some t := by
    cases hh : i.title
    · simp [populatedIssue, hh] at hi
    · exact ⟨_, rfl⟩
  have hdec : reconcileWriteNeeded i cp =
      (labelDecision (ReviewRequestFromIssue
        ⟨(match rp.owner with
          | some ow => ow.login.getD ""
          | none => ""), rp.name.getD ""⟩
        ⟨i.number.getD 0, t, "", i.htmlURL.getD "", i.labels,
          i.prLinked⟩ cp)).1 := by
    rw [reconcileWriteNeeded,
      labelDecision_repo_irrelevant (E := E)
        ⟨i.number.getD 0, i.title.getD "", "", i.htmlURL.getD "", i.labels,
          i.prLinked⟩
        ⟨"", ""⟩
        ⟨(match rp.owner with
          | some ow => ow.login.getD ""
          | none => ""), rp.name.getD ""⟩ cp, ht]
    simp only [Option.getD_some]
  rw [runReconcile.eq_def, ht]
  simp only
  by_cases hw : (labelDecision (ReviewRequestFromIssue
      ⟨(match rp.owner with
        | some ow => ow.login.getD ""
        | none => ""), rp.name.getD ""⟩
      ⟨i.number.getD 0, t, "", i.htmlURL.getD "", i.labels,
        i.prLinked⟩ cp)).1 = true
  · rw [if_pos hw, hn]
    cases ro with
    | error e =>
      refine ⟨_, rfl, Or.inr rfl, ?_⟩
      simp [hdec, hw]
    | ok u =>
      refine ⟨_, rfl, Or.inl rfl, ?_⟩
      simp
  · rw [if_neg hw]
    refine ⟨_, rfl, Or.inl rfl, ?_⟩
    constructor
    · intro h
      cases h
    · rintro ⟨hwn, _⟩
      rw [hdec] at hwn
      exact absurd hwn hw

/-- The exact failure sources of the handler on a handled event type with a
decodable, pointer-safe payload: the issue fetch of the opened-pull-request
path failed, or reconciliation was triggered, needed a write, and the
replace call failed. -/
def webhookFails {E : Type} (p : Payload) (fetchIssue : Except E PIssue)
    (commentPages : List (Except E CommentPage))
    (replaceOutcome : Except E Unit) : Prop :=
  (openedPath p = true ∧ ∃ e, fetchIssue = Except.error e) ∨
  (∃ i, triggeredIssue p fetchIssue = some i ∧
    reconcileWriteNeeded i commentPages = true ∧
    ∃ e, replaceOutcome = Except.error e)

/-- C9: an unhandled event type gets a 200 with no tracker calls; on a
handled event type the handler answers 501 on a JSON decode failure, and
otherwise — given that the payload satisfies the pointer preconditions —
it answers 200 or 501, with 501 exactly when the opened-pull-request issue
fetch fails or a needed reconciliation write fails. -/
theorem c9_webhook_status_contract {E : Type} (event : String)
    (decoded : Except E Payload) (fetchIssue : Except E PIssue)
    (commentPages : List (Except E CommentPage))
    (replaceOutcome : Except E Unit) :
    (¬(event = "pull_request" ∨ event = "issue_comment") →
      githubWebhook event decoded fetchIssue commentPages replaceOutcome =
        some ⟨200, []⟩) ∧
    (∀ e, (event = "pull_request" ∨ event = "issue_comment") →
      decoded = Except.error e →
      githubWebhook event decoded fetchIssue commentPages replaceOutcome =
        some ⟨501, []⟩) ∧
    (∀ p, (event = "pull_request" ∨ event = "issue_comment") →
      decoded = Except.ok p → safePayload p = true →
      (∀ i2, fetchIssue = Except.ok i2 → populatedIssue i2 = true) →
      ∃ out, githubWebhook event decoded fetchIssue commentPages
          replaceOutcome = some out ∧
        (out.status = 200 ∨ out.status = 501) ∧
        (out.status = 501 ↔
          webhookFails p fetchIssue commentPages replaceOutcome)) := by
  refine ⟨?_, ?_, ?_⟩
  · intro h
    push_neg at h
    have hcond : (event == "pull_request" || event == "issue_comment") =
        false := by
      simp [h.1, h.2]
    unfold githubWebhook
    rw [if_pos (by simp [hcond])]
  · intro e hev hdec
    have hcond : (event == "pull_request" || event == "issue_comment") =
        true := by
      rcases hev with rfl | rfl <;> simp
    unfold githubWebhook
    rw [hdec, if_neg (by simp [hcond])]
  · intro p hev hdec hsafe hfetch
    have hcond : (event == "pull_request" || event == "issue_comment") =
        true := by
      rcases hev with rfl | rfl <;> simp
    rw [hdec]
    obtain ⟨act, oIss, oRep, oPr⟩ := p
    simp only [safePayload, Bool.and_eq_true] at hsafe
    obtain ⟨⟨⟨hs1, hs2⟩, hs3⟩, hs4⟩ := hsafe
    have hlog2 : logIssueOk oIss = true := by
      cases oIss with
      | none => rfl
      | some i =>
        simp only [populatedIssue, Bool.and_eq_true] at hs2
        simp [logIssueOk, hs2.1.1, hs2.1.2]
    by_cases hwt : wantsTrigger ⟨act, oIss, oRep, oPr⟩ = true
    · cases oIss with
      | none => simp [wantsTrigger] at hwt
      | some i =>
        cases oRep with
        | none =>
          rw [if_pos (by simp [hwt])] at hs4
          simp at hs4
        | some rp =>
          have hpi : populatedIssue i = true := by simpa using hs2
          obtain ⟨out, hout, hst, hiff⟩ :=
            runReconcile_spec rp i commentPages replaceOutcome [] hpi
          refine ⟨out, ?_, hst, ?_⟩
          · simp only [githubWebhook, hcond, Bool.or_self, Bool.not_true,
              Bool.false_eq_true, if_false, hs1, hlog2, hwt, if_true]
            exact hout
          · rw [hiff]
            unfold webhookFails
            have hop : openedPath ⟨act, some i, some rp, oPr⟩ = false := by
              simp [openedPath, hwt]
            have htrig : triggeredIssue ⟨act, some i, some rp, oPr⟩
                fetchIssue = some i := by
              simp [triggeredIssue, hwt]
            constructor
            · rintro ⟨hwn, he⟩
              exact Or.inr ⟨i, htrig, hwn, he⟩
            · rintro (⟨hoo, _⟩ | ⟨j, hj, hwn, he⟩)
              · rw [hop] at hoo
                cases hoo
              · rw [htrig] at hj
                cases hj
                exact ⟨hwn, he⟩
    · have hwtf : wantsTrigger ⟨act, oIss, oRep, oPr⟩ = false := by
        simpa using hwt
      cases oPr with
      | none =>
        have hop : openedPath ⟨act, oIss, oRep, none⟩ = false := by
          simp [openedPath]
        refine ⟨⟨200, []⟩, ?_, Or.inl rfl, ?_⟩
        · simp [githubWebhook, hcond, hs1, hlog2, hwtf]
        · constructor
          · intro h200
            cases h200
          · rintro (⟨hoo, _⟩ | ⟨j, hj, _, _⟩)
            · rw [hop] at hoo
              cases hoo
            · simp [triggeredIssue, hwtf, hop] at hj
      | some pr =>
        by_cases hact : (act == "opened") = true
        · have hop : openedPath ⟨act, oIss, oRep, some pr⟩ = true := by
            simp [openedPath, hwtf, hact]
          cases oRep with
          | none =>
            rw [if_pos (by simp [hop])] at hs4
            simp at hs4
          | some rp =>
            obtain ⟨n, hpn⟩ : ∃ n, pr.number = some n := by
              exact Option.isSome_iff_exists.mp (by simpa using hs3)
            cases hfi : fetchIssue with
            | error e =>
              refine ⟨⟨501, [TrackerCall.issuesGet]⟩, ?_, Or.inr rfl, ?_⟩
              · simp [githubWebhook, hcond, hs1, hlog2, hwtf, hact, hpn]
              · exact iff_of_true rfl (Or.inl ⟨hop, ⟨e, rfl⟩⟩)
            | ok i2 =>
              have hpi2 : populatedIssue i2 = true := hfetch i2 hfi
              obtain ⟨out, hout, hst, hiff⟩ :=
                runReconcile_spec rp i2 commentPages replaceOutcome
                  [TrackerCall.issuesGet] hpi2
              refine ⟨out, ?_, hst, ?_⟩
              · simp only [githubWebhook, hcond, Bool.or_self, Bool.not_true,
                  Bool.false_eq_true, if_false, hs1, hlog2, hwtf, hact,
                  if_true, hpn]
                exact hout
              · rw [hiff]
                unfold webhookFails
                have htrig : triggeredIssue (E := E)
                    ⟨act, oIss, some rp, some pr⟩
                    (Except.ok i2) = some i2 := by
                  simp [triggeredIssue, hwtf, hop]
                constructor
                · rintro ⟨hwn, he⟩
                  exact Or.inr ⟨i2, htrig, hwn, he⟩
                · rintro (⟨_, ⟨e, hee⟩⟩ | ⟨j, hj, hwn, he⟩)
                  · cases hee
                  · rw [htrig] at hj
                    cases hj
                    exact ⟨hwn, he⟩
        · have hop : openedPath ⟨act, oIss, oRep, some pr⟩ = false := by
            simp [openedPath, hact]
          refine ⟨⟨200, []⟩, ?_, Or.inl rfl, ?_⟩
          · simp [githubWebhook, hcond, hs1, hlog2, hwtf, hact]
          · constructor
            · intro h200
              cases h200
            · rintro (⟨hoo, _⟩ | ⟨j, hj, _, _⟩)
              · rw [hop] at hoo
                cases hoo
              · simp [triggeredIssue, hwtf, hop] at hj

/-- Witness for C9 at concrete inputs: a `ping` event gets a 200 with no
tracker calls, and a handled event with an undecodable body gets a 501. -/
theorem c9_webhook_status_contract_witness :
    githubWebhook (E := String) "ping" (Except.ok payloadNoRepo)
      (Except.ok ⟨some 1, some "u", some "t", true, []⟩) []
      (Except.ok ()) = some ⟨200, []⟩ ∧
    githubWebhook (E := String) "pull_request" (Except.error "bad json")
      (Except.ok ⟨some 1, some "u", some "t", true, []⟩) []
      (Except.ok ()) = some ⟨501, []⟩ :=
  ⟨(c9_webhook_status_contract "ping" (Except.ok payloadNoRepo)
      (Except.ok ⟨some 1, some "u", some "t", true, []⟩) []
      (Except.ok ())).1 (by decide),
    (c9_webhook_status_contract "pull_request" (Except.error "bad json")
      (Except.ok ⟨some 1, some "u", some "t", true, []⟩) []
      (Except.ok ())).2.1 "bad json" (Or.inl rfl) rfl⟩
